import Mathlib

/-!
Verification of the WWVB time-signal decoder (`src/wwvb_dec.c`).

The sample buffer is modelled as a function `Nat → Bool` (the spec fixes
sample values to be strictly 0 or 1); machine `uint32_t` arithmetic never
overflows in the quantities involved (error counts are bounded by the
buffer length 4800), so `Nat` is used throughout.
-/

namespace WwvbDec

/-! Constants from wwvb_dec.c (lines 21-28). -/

def SAMP_PERIOD : Nat := 25

def SAMP_PERIOD_USEC : Nat := 1000 * SAMP_PERIOD

def BUF_LEN_IN_SEC : Nat := 120

def SAMPLES_PER_SEC : Nat := 1000 / SAMP_PERIOD

def BLEN : Nat := SAMPLES_PER_SEC * BUF_LEN_IN_SEC

def DECODE_FAILURE : Nat := 9999

/-- Count of errors in one second of samples against an ideal template of
`zero_len` low samples followed by `one_len` high samples
(`xor_sec`, wwvb_dec.c lines 138-151): the first loop adds `0 ^ bits[i]`
over the low sub-span, the second adds `1 ^ bits[i]` over the high
sub-span. -/
def xor_sec (bits : Nat → Bool) (samp_idx zero_len one_len : Nat) : Nat :=
  (∑ i ∈ Finset.range zero_len, (bits (samp_idx + i)).toNat) +
    ∑ i ∈ Finset.range one_len, (1 - (bits (samp_idx + zero_len + i)).toNat)

/-- Marker template: 80% low, 20% high (`xor_mark`, lines 153-156). -/
def xor_mark (bits : Nat → Bool) (samp_idx : Nat) : Nat :=
  xor_sec bits samp_idx (800 / SAMP_PERIOD) (200 / SAMP_PERIOD)

/-- Zero template: 20% low, 80% high (`xor_zero`, lines 158-161). -/
def xor_zero (bits : Nat → Bool) (samp_idx : Nat) : Nat :=
  xor_sec bits samp_idx (200 / SAMP_PERIOD) (800 / SAMP_PERIOD)

/-- One template: 50% low, 50% high (`xor_one`, lines 163-166). -/
def xor_one (bits : Nat → Bool) (samp_idx : Nat) : Nat :=
  xor_sec bits samp_idx (500 / SAMP_PERIOD) (500 / SAMP_PERIOD)

/-- Per-second symbol classification (`decode_sec`, lines 259-283):
returns `(best_type, score)` with `best_type` 0, 1 or 2 for zero, one or
marker.  The pair `p` models the `(best_type, lscore)` state after the
first comparison `one_score < zero_score`; the second comparison is
`mark_score < lscore`. -/
def decode_sec (bits : Nat → Bool) (samp_idx : Nat) : Nat × Nat :=
  let zero_score := xor_zero bits samp_idx
  let one_score := xor_one bits samp_idx
  let mark_score := xor_mark bits samp_idx
  let p : Nat × Nat :=
    if one_score < zero_score then (1, one_score) else (0, zero_score)
  if mark_score < p.2 then (2, mark_score) else p

/-! Fixed-value frame positions (`frame_const_fields`, lines 173-195):
pairs `(type, sec)` with type 0 for zero and 2 for marker. -/

def frame_const_fields : List (Nat × Nat) :=
  [(2, 0), (0, 4), (2, 9), (0, 10), (0, 11), (0, 14), (2, 19), (0, 20),
   (0, 21), (0, 24), (2, 29), (0, 34), (0, 35), (2, 39), (0, 44), (2, 49),
   (0, 54), (2, 59)]

/-- Error contribution of one fixed-value frame position: the `switch` body
of `xor_frame` (lines 207-216). -/
def xor_entry (bits : Nat → Bool) (samp_idx : Nat) (e : Nat × Nat) : Nat :=
  if e.1 = 0 then xor_zero bits (samp_idx + e.2 * SAMPLES_PER_SEC)
  else if e.1 = 2 then xor_mark bits (samp_idx + e.2 * SAMPLES_PER_SEC)
  else 0

/-- Loop of `xor_frame` (lines 205-222), accumulator `sum`: after each
entry the partial sum is compared against `min_val` and the loop returns
early once it strictly exceeds it. -/
def xor_frame_go (bits : Nat → Bool) (samp_idx min_val : Nat) :
    List (Nat × Nat) → Nat → Nat
  | [], sum => sum
  | e :: rest, sum =>
    let sum2 := sum + xor_entry bits samp_idx e
    if min_val < sum2 then sum2 else xor_frame_go bits samp_idx min_val rest sum2

/-- Frame-start score with early abandon (`xor_frame`, lines 201-225). -/
def xor_frame (bits : Nat → Bool) (samp_idx min_val : Nat) : Nat :=
  xor_frame_go bits samp_idx min_val frame_const_fields 0

/-- Exhaustive frame-start score: cumulative error over all 18 fixed
positions, with no early abandon.  This is the spec-side variant of
`xor_frame` (spec §4.2: the pruning "must not change the final result"). -/
def xor_frame_full (bits : Nat → Bool) (samp_idx : Nat) : Nat :=
  (frame_const_fields.map (xor_entry bits samp_idx)).sum

/-- Loop of `find_frame` (lines 239-245), state `(min_idx, lmin)`. -/
def find_frame_loop (bits : Nat → Bool) :
    List Nat → Nat × Nat → Nat × Nat
  | [], st => st
  | idx :: rest, st =>
    let res := xor_frame bits idx st.2
    if res < st.2 then find_frame_loop bits rest (idx, res)
    else find_frame_loop bits rest st

/-- Frame search (`find_frame`, lines 232-249): scans candidate start
offsets `0 ≤ samp_idx < BLEN - SAMPLES_PER_SEC*60`, with initial state
`min_idx = BLEN + BLEN` and `lmin = SAMPLES_PER_SEC * 120`; returns
`(min_idx, min_val)`. -/
def find_frame (bits : Nat → Bool) : Nat × Nat :=
  find_frame_loop bits (List.range (BLEN - SAMPLES_PER_SEC * 60))
    (BLEN + BLEN, SAMPLES_PER_SEC * 120)

/-- Loop of the exhaustive variant of `find_frame`: identical except that
every candidate is scored by `xor_frame_full` (all 18 positions, no
pruning). -/
def find_frame_exhaustive_loop (bits : Nat → Bool) :
    List Nat → Nat × Nat → Nat × Nat
  | [], st => st
  | idx :: rest, st =>
    let res := xor_frame_full bits idx
    if res < st.2 then find_frame_exhaustive_loop bits rest (idx, res)
    else find_frame_exhaustive_loop bits rest st

/-- Exhaustive variant of `find_frame` (spec §4.2's description without
the pruning optimization). -/
def find_frame_exhaustive (bits : Nat → Bool) : Nat × Nat :=
  find_frame_exhaustive_loop bits (List.range (BLEN - SAMPLES_PER_SEC * 60))
    (BLEN + BLEN, SAMPLES_PER_SEC * 120)

/-! Field code tables (wwvb_dec.c lines 39-47), as `(bit, weight)` pairs. -/

def minutes_code : List (Nat × Nat) :=
  [(1, 40), (2, 20), (3, 10), (5, 8), (6, 4), (7, 2), (8, 1)]

def hours_code : List (Nat × Nat) :=
  [(12, 20), (13, 10), (15, 8), (16, 4), (17, 2), (18, 1)]

def day_code : List (Nat × Nat) :=
  [(22, 200), (23, 100), (25, 80), (26, 40), (27, 20), (28, 10),
   (30, 8), (31, 4), (32, 2), (33, 1)]

def year_code : List (Nat × Nat) :=
  [(45, 80), (46, 40), (47, 20), (48, 10), (50, 8), (51, 4), (52, 2), (53, 1)]

def lyi_code : List (Nat × Nat) := [(55, 1)]

def lsw_code : List (Nat × Nat) := [(56, 1)]

def dst_code : List (Nat × Nat) := [(57, 2), (58, 1)]

/-- The frame's fields in the order of the `frame[]` table (lines 61-69). -/
def frame_codes : List (List (Nat × Nat)) :=
  [hours_code, minutes_code, day_code, year_code, lyi_code, lsw_code, dst_code]

/-- Loop of `decode_field` (lines 303-314), accumulators
`(field_val, lscore, worst_score)`; on a marker classification the
function returns `(0, DECODE_FAILURE, SAMPLES_PER_SEC)` at once
(lines 306-309) without touching the remaining code entries. -/
def decode_field_go (bits : Nat → Bool) (frame_idx : Nat) :
    List (Nat × Nat) → Nat → Nat → Nat → Nat × Nat × Nat
  | [], field_val, lscore, worst => (field_val, lscore, worst)
  | c :: rest, field_val, lscore, worst =>
    let r := decode_sec bits (frame_idx + c.1 * SAMPLES_PER_SEC)
    let worst2 := max worst r.2
    if r.1 = 2 then (0, DECODE_FAILURE, SAMPLES_PER_SEC)
    else decode_field_go bits frame_idx rest (field_val + c.2 * r.1)
      (lscore + r.2) worst2

/-- Field decode (`decode_field`, lines 296-318): returns
`(value, score, worst_score)`. -/
def decode_field (bits : Nat → Bool) (frame_idx : Nat)
    (code : List (Nat × Nat)) : Nat × Nat × Nat :=
  decode_field_go bits frame_idx code 0 0 0

/-- Frame decode (`decode_frame`, lines 323-336): total of the per-field
scores (the per-field results are `decode_field` on each code table). -/
def decode_frame (bits : Nat → Bool) (frame_idx : Nat) : Nat :=
  (frame_codes.map (fun code => (decode_field bits frame_idx code).2.1)).sum

/-- Every sample index `decode_frame` can read, as a list: for each code
entry of each field, `decode_sec` reads the `SAMPLES_PER_SEC` consecutive
samples starting at `frame_idx + bit * SAMPLES_PER_SEC`.  (Because of the
marker short-circuit the actual reads are a subset of this list.) -/
def decode_frame_reads (frame_idx : Nat) : List Nat :=
  (frame_codes.flatten.map (fun c =>
    (List.range SAMPLES_PER_SEC).map
      (fun j => frame_idx + c.1 * SAMPLES_PER_SEC + j))).flatten

/-! Calendar conversion (`daynum_to_month_day`, lines 365-381). -/

/-- The cumulative day-count table `daysums` (line 367). -/
def daysums : List Nat :=
  [31, 59, 90, 120, 151, 181, 212, 243, 273, 304, 334, 365]

/-- Indices written by the leap-year adjustment loop
`for (i = 1; i < 13; i++) daysums[i] += 1;` (line 370). -/
def leap_write_indices : List Nat := List.range' 1 12

/-- Leap-year adjustment (line 370): each listed index is incremented.
The C loop also targets index 12, one past the end of the 12-entry array
(an out-of-bounds write, see `leap_write_indices`); `List.set` drops that
write, which leaves the in-bounds entries as the C code computes them. -/
def leap_adjust (l : List Nat) : List Nat :=
  leap_write_indices.foldl (fun acc i => acc.set i ((acc.getD i 0) + 1)) l

/-- The month-search loop `while (daysums[*month] < daynum) *month += 1;`
(lines 372-374), with an out-of-bounds read modelled as `none` (in the C
source such a read is undefined behavior).  `fuel` bounds the recursion;
`13` exceeds any in-bounds chain length. -/
def month_search (l : List Nat) (daynum : Nat) : Nat → Nat → Option Nat
  | 0, _ => none
  | fuel + 1, m =>
    match l[m]? with
    | none => none
    | some v => if v < daynum then month_search l daynum fuel (m + 1) else some m

/-- Calendar conversion (`daynum_to_month_day`, lines 365-381): returns
`some (month, day)` with month in 1..12, or `none` when the C code reads
the `daysums` array out of bounds. -/
def daynum_to_month_day (daynum : Nat) (is_leap_year : Bool) :
    Option (Nat × Nat) :=
  let ds := if is_leap_year then leap_adjust daysums else daysums
  match month_search ds daynum 13 0 with
  | none => none
  | some m =>
    some (m + 1, if 0 < m then daynum - ds.getD (m - 1) 0 else daynum)

/-- Reliability tiers printed by `main` (lines 464-471). -/
inductive Reliability where
  | LIKELY_OK
  | NOT_RELIABLE
  | PROBABLY_BAD
deriving DecidableEq

/-- Reliability classification of the frame's worst-position score
(`main`, lines 466-471). -/
def classify_reliability (s : Nat) : Reliability :=
  if s < 7 then Reliability.LIKELY_OK
  else if s < 10 then Reliability.NOT_RELIABLE
  else Reliability.PROBABLY_BAD

/-- Concrete one-second pattern used to exhibit the zero/one tie-break:
true on [8,14) and on [20,40). -/
def bits_tie : Nat → Bool :=
  fun i => decide ((8 ≤ i ∧ i < 14) ∨ (20 ≤ i ∧ i < 40))

/-! Theorems. -/

/-- C1 counterexample: on the pattern `bits_tie` the ONE and ZERO template
scores tie (both 6, below MARKER's 18), yet `decode_sec` classifies the
second as ZERO (0), not ONE (1): an equal ONE does not beat ZERO. -/
theorem decode_sec_tie_cex :
    xor_one bits_tie 0 = xor_zero bits_tie 0 ∧
    xor_one bits_tie 0 < xor_mark bits_tie 0 ∧
    (decode_sec bits_tie 0).1 = 0 ∧ (decode_sec bits_tie 0).1 ≠ 1 := by
  decide

/-- C1 (amended): `decode_sec` returns the minimum of the ZERO, ONE and
MARKER template scores, and the returned symbol is characterized by: ZERO
wins whenever its score is ≤ both others (so ZERO beats an equal ONE and
an equal MARKER), ONE wins when strictly below ZERO and ≤ MARKER, and
MARKER wins only when strictly below both. -/
theorem decode_sec_min (bits : Nat → Bool) (samp_idx : Nat) :
    (decode_sec bits samp_idx).2 =
      min (min (xor_zero bits samp_idx) (xor_one bits samp_idx))
        (xor_mark bits samp_idx) ∧
    ((decode_sec bits samp_idx).1 = 0 ↔
      xor_zero bits samp_idx ≤ xor_one bits samp_idx ∧
        xor_zero bits samp_idx ≤ xor_mark bits samp_idx) ∧
    ((decode_sec bits samp_idx).1 = 1 ↔
      xor_one bits samp_idx < xor_zero bits samp_idx ∧
        xor_one bits samp_idx ≤ xor_mark bits samp_idx) ∧
    ((decode_sec bits samp_idx).1 = 2 ↔
      xor_mark bits samp_idx < xor_zero bits samp_idx ∧
        xor_mark bits samp_idx < xor_one bits samp_idx) := by
  unfold decode_sec
  set z := xor_zero bits samp_idx with hz
  set o := xor_one bits samp_idx with ho
  set m := xor_mark bits samp_idx with hm
  dsimp only
  split_ifs <;> simp_all <;> omega

/-- C2 counterexample: on an all-zero second `decode_sec` returns MARKER
with score 8, not ZERO with score 32 as the claim states. -/
theorem decode_sec_all_zero_cex :
    decode_sec (fun _ => false) 0 = (2, 8) ∧
    decode_sec (fun _ => false) 0 ≠ (0, 32) := by
  decide

/-- Helper: a template over an all-zero span scores exactly the length of
its high sub-span. -/
theorem xor_sec_all_false (bits : Nat → Bool) (samp_idx zl ol : Nat)
    (h : ∀ i, i < zl + ol → bits (samp_idx + i) = false) :
    xor_sec bits samp_idx zl ol = ol := by
  unfold xor_sec
  have h1 : ∀ i ∈ Finset.range zl, (bits (samp_idx + i)).toNat = 0 := by
    intro i hi
    rw [h i (by have := Finset.mem_range.mp hi; omega)]
    rfl
  have h2 : ∀ i ∈ Finset.range ol,
      1 - (bits (samp_idx + zl + i)).toNat = 1 := by
    intro i hi
    rw [show samp_idx + zl + i = samp_idx + (zl + i) by omega,
      h (zl + i) (by have := Finset.mem_range.mp hi; omega)]
    rfl
  rw [Finset.sum_congr rfl h1, Finset.sum_congr rfl h2]
  simp

/-- C2 (amended): on a one-second span whose samples are all 0,
`decode_sec` returns MARKER (2) with score 8 — the number of samples in
the MARKER template's high sub-span (20% of the second at 40 samples per
second); the ZERO template scores 32 there and loses. -/
theorem decode_sec_all_zero (bits : Nat → Bool) (samp_idx : Nat)
    (h : ∀ i, i < SAMPLES_PER_SEC → bits (samp_idx + i) = false) :
    decode_sec bits samp_idx = (2, 8) := by
  have hz : xor_zero bits samp_idx = 32 :=
    xor_sec_all_false bits samp_idx 8 32 (by intro i hi; exact h i hi)
  have ho : xor_one bits samp_idx = 20 :=
    xor_sec_all_false bits samp_idx 20 20 (by intro i hi; exact h i hi)
  have hm : xor_mark bits samp_idx = 8 :=
    xor_sec_all_false bits samp_idx 32 8 (by intro i hi; exact h i hi)
  simp [decode_sec, hz, ho, hm]

/-- Witness for `decode_sec_all_zero` at the constant-false buffer. -/
theorem decode_sec_all_zero_witness :
    (∀ i, i < SAMPLES_PER_SEC → (fun _ => false) i = false) ∧
    decode_sec (fun _ => false) 0 = (2, 8) :=
  ⟨fun _ _ => rfl, decode_sec_all_zero (fun _ => false) 0 (fun _ _ => rfl)⟩

/-- Helper: whenever the code list contains an entry classifying as
MARKER, `decode_field_go` returns the failure triple, whatever the
accumulators are. -/
theorem decode_field_go_marker (bits : Nat → Bool) (frame_idx : Nat)
    (c : Nat × Nat)
    (h : (decode_sec bits (frame_idx + c.1 * SAMPLES_PER_SEC)).1 = 2) :
    ∀ (pre post : List (Nat × Nat)) (val sc worst : Nat),
      decode_field_go bits frame_idx (pre ++ c :: post) val sc worst =
        (0, DECODE_FAILURE, SAMPLES_PER_SEC) := by
  intro pre
  induction pre with
  | nil =>
    intro post val sc worst
    rw [List.nil_append]
    simp only [decode_field_go]
    rw [if_pos h]
  | cons p pre ih =>
    intro post val sc worst
    rw [List.cons_append]
    simp only [decode_field_go]
    split_ifs with hp
    · rfl
    · exact ih post _ _ _

/-- C5: if some position of the field's code classifies as MARKER, then
`decode_field` returns value 0, score `DECODE_FAILURE` (9999) and
worst-position score `SAMPLES_PER_SEC` (40); moreover the entries after
the marker are never consulted: replacing them by any other list leaves
the result unchanged. -/
theorem decode_field_marker_fail (bits : Nat → Bool) (frame_idx : Nat)
    (pre : List (Nat × Nat)) (c : Nat × Nat) (post : List (Nat × Nat))
    (h : (decode_sec bits (frame_idx + c.1 * SAMPLES_PER_SEC)).1 = 2) :
    decode_field bits frame_idx (pre ++ c :: post) =
      (0, DECODE_FAILURE, SAMPLES_PER_SEC) ∧
    ∀ post2, decode_field bits frame_idx (pre ++ c :: post2) =
      decode_field bits frame_idx (pre ++ c :: post) := by
  constructor
  · exact decode_field_go_marker bits frame_idx c h pre post 0 0 0
  · intro post2
    rw [decode_field, decode_field,
      decode_field_go_marker bits frame_idx c h pre post 0 0 0,
      decode_field_go_marker bits frame_idx c h pre post2 0 0 0]

/-- Witness for `decode_field_marker_fail`: on the constant-false buffer
every second classifies as MARKER, so the minutes field fails on its
first code entry. -/
theorem decode_field_marker_fail_witness :
    ((decode_sec (fun _ => false) (0 + (1 : Nat) * SAMPLES_PER_SEC)).1 = 2) ∧
    decode_field (fun _ => false) 0 minutes_code =
      (0, DECODE_FAILURE, SAMPLES_PER_SEC) := by
  refine ⟨by decide, ?_⟩
  have h := (decode_field_marker_fail (fun _ => false) 0 [] (1, 40)
    [(2, 20), (3, 10), (5, 8), (6, 4), (7, 2), (8, 1)] (by decide)).1
  simpa [minutes_code] using h

/-- Helper: the accumulating form of `decode_field` when no position
classifies as MARKER. -/
theorem decode_field_go_no_marker (bits : Nat → Bool) (frame_idx : Nat) :
    ∀ (code : List (Nat × Nat)),
      (∀ c ∈ code,
        (decode_sec bits (frame_idx + c.1 * SAMPLES_PER_SEC)).1 ≠ 2) →
      ∀ val sc worst,
        decode_field_go bits frame_idx code val sc worst =
          (val + (code.map (fun c =>
              c.2 * (decode_sec bits (frame_idx + c.1 * SAMPLES_PER_SEC)).1)).sum,
           sc + (code.map (fun c =>
              (decode_sec bits (frame_idx + c.1 * SAMPLES_PER_SEC)).2)).sum,
           (code.map (fun c =>
              (decode_sec bits (frame_idx + c.1 * SAMPLES_PER_SEC)).2)).foldl
             max worst) := by
  intro code
  induction code with
  | nil => intro h val sc worst; simp [decode_field_go]
  | cons c rest ih =>
    intro h val sc worst
    simp only [decode_field_go]
    rw [if_neg (h c (List.mem_cons_self c rest))]
    rw [ih (fun d hd => h d (List.mem_cons_of_mem c hd))]
    simp [Nat.add_assoc]

/-- Helper: the left fold of `max` over a list of zeros is zero. -/
theorem foldl_max_eq_zero :
    ∀ l : List Nat, (∀ x ∈ l, x = 0) → l.foldl max 0 = 0 := by
  intro l
  induction l with
  | nil => intro; rfl
  | cons x xs ih =>
    intro h
    have hx : x = 0 := h x (by simp)
    simp only [List.foldl_cons, hx, Nat.max_self]
    exact ih (fun y hy => h y (by simp [hy]))

/-- C6: when no position of the field's code classifies as MARKER,
`decode_field` returns the weighted sum of the classified bits, the sum
of the per-position scores, and their maximum (as a left fold of `max`
from 0); in particular, when every position moreover matches perfectly
(score 0), the result is the exact weighted sum with score 0 and worst
score 0. -/
theorem decode_field_no_marker (bits : Nat → Bool) (frame_idx : Nat)
    (code : List (Nat × Nat))
    (h : ∀ c ∈ code,
      (decode_sec bits (frame_idx + c.1 * SAMPLES_PER_SEC)).1 ≠ 2) :
    decode_field bits frame_idx code =
      ((code.map (fun c =>
          c.2 * (decode_sec bits (frame_idx + c.1 * SAMPLES_PER_SEC)).1)).sum,
       (code.map (fun c =>
          (decode_sec bits (frame_idx + c.1 * SAMPLES_PER_SEC)).2)).sum,
       (code.map (fun c =>
          (decode_sec bits (frame_idx + c.1 * SAMPLES_PER_SEC)).2)).foldl
         max 0) ∧
    ((∀ c ∈ code,
        (decode_sec bits (frame_idx + c.1 * SAMPLES_PER_SEC)).2 = 0) →
      decode_field bits frame_idx code =
        ((code.map (fun c =>
            c.2 * (decode_sec bits (frame_idx + c.1 * SAMPLES_PER_SEC)).1)).sum,
         0, 0)) := by
  have hmain : decode_field bits frame_idx code =
      ((code.map (fun c =>
          c.2 * (decode_sec bits (frame_idx + c.1 * SAMPLES_PER_SEC)).1)).sum,
       (code.map (fun c =>
          (decode_sec bits (frame_idx + c.1 * SAMPLES_PER_SEC)).2)).sum,
       (code.map (fun c =>
          (decode_sec bits (frame_idx + c.1 * SAMPLES_PER_SEC)).2)).foldl
         max 0) := by
    rw [decode_field, decode_field_go_no_marker bits frame_idx code h]
    simp
  refine ⟨hmain, fun h0 => ?_⟩
  rw [hmain]
  have hall : ∀ x ∈ code.map (fun c =>
      (decode_sec bits (frame_idx + c.1 * SAMPLES_PER_SEC)).2), x = 0 := by
    intro x hx
    rcases List.mem_map.mp hx with ⟨c, hc, rfl⟩
    exact h0 c hc
  rw [List.sum_eq_zero hall, foldl_max_eq_zero _ hall]

/-- Witness for `decode_field_no_marker`: on the constant-true buffer the
leap-year-indicator field decodes without a marker, with value 0 and
score 8. -/
theorem decode_field_no_marker_witness :
    (∀ c ∈ [((55 : Nat), (1 : Nat))],
      (decode_sec (fun _ => true) (0 + c.1 * SAMPLES_PER_SEC)).1 ≠ 2) ∧
    decode_field (fun _ => true) 0 [(55, 1)] = (0, 8, 8) := by
  refine ⟨by decide, ?_⟩
  rw [(decode_field_no_marker (fun _ => true) 0 [(55, 1)] (by decide)).1]
  decide

/-- C8: the three boundary conversions of `daynum_to_month_day`. -/
theorem daynum_to_month_day_values :
    daynum_to_month_day 59 false = some (2, 28) ∧
    daynum_to_month_day 60 true = some (2, 29) ∧
    daynum_to_month_day 1 false = some (1, 1) := by
  decide

/-- C7 (code bug): the leap-year adjustment loop writes index 12, one past
the end of the 12-entry `daysums` array, and for the in-range input
daynum = 366 with `is_leap_year` false the month-search loop reads
`daysums[12]` out of bounds (modelled as `none`). -/
theorem daynum_to_month_day_oob :
    (12 ∈ leap_write_indices ∧ daysums.length = 12) ∧
    daynum_to_month_day 366 false = none := by
  decide

/-- C9: the reliability tiers are exactly the intervals score < 7,
7 ≤ score < 10 and 10 ≤ score, with the claimed boundary values. -/
theorem classify_reliability_spec :
    (∀ s, classify_reliability s = Reliability.LIKELY_OK ↔ s < 7) ∧
    (∀ s, classify_reliability s = Reliability.NOT_RELIABLE ↔
      7 ≤ s ∧ s < 10) ∧
    (∀ s, classify_reliability s = Reliability.PROBABLY_BAD ↔ 10 ≤ s) ∧
    classify_reliability 6 = Reliability.LIKELY_OK ∧
    classify_reliability 9 = Reliability.NOT_RELIABLE ∧
    classify_reliability 10 = Reliability.PROBABLY_BAD := by
  refine ⟨?_, ?_, ?_, by decide, by decide, by decide⟩ <;>
    (intro s; unfold classify_reliability; split_ifs <;> simp_all <;> omega)

/-- Helper: the early-abandon loop of `xor_frame` either computes the
exact sum of the remaining entries, or stops early with a partial sum
that strictly exceeds `m` and is at most the exact sum. -/
theorem xor_frame_go_spec (bits : Nat → Bool) (samp_idx m : Nat) :
    ∀ (l : List (Nat × Nat)) (s : Nat),
      xor_frame_go bits samp_idx m l s =
          s + (l.map (xor_entry bits samp_idx)).sum ∨
        (m < xor_frame_go bits samp_idx m l s ∧
          xor_frame_go bits samp_idx m l s ≤
            s + (l.map (xor_entry bits samp_idx)).sum) := by
  intro l
  induction l with
  | nil => intro s; left; simp [xor_frame_go]
  | cons e rest ih =>
    intro s
    simp only [xor_frame_go, List.map_cons, List.sum_cons]
    split_ifs with hp
    · right
      refine ⟨hp, ?_⟩
      omega
    · rcases ih (s + xor_entry bits samp_idx e) with h | ⟨h1, h2⟩
      · left
        rw [h]
        omega
      · right
        exact ⟨h1, by omega⟩

/-- Helper: `xor_frame` at threshold `m` equals the full 18-position sum,
or exceeds `m` while staying below that sum. -/
theorem xor_frame_cases (bits : Nat → Bool) (samp_idx m : Nat) :
    xor_frame bits samp_idx m = xor_frame_full bits samp_idx ∨
      (m < xor_frame bits samp_idx m ∧
        xor_frame bits samp_idx m ≤ xor_frame_full bits samp_idx) := by
  have h := xor_frame_go_spec bits samp_idx m frame_const_fields 0
  simpa [xor_frame, xor_frame_full] using h

/-- Helper: the pruned and the exhaustive search loops take identical
steps from any state: a pruned candidate returns a value above the
running best, so it is rejected exactly as its full sum would be. -/
theorem find_frame_loop_eq (bits : Nat → Bool) :
    ∀ (l : List Nat) (st : Nat × Nat),
      find_frame_loop bits l st = find_frame_exhaustive_loop bits l st := by
  intro l
  induction l with
  | nil => intro st; rfl
  | cons idx rest ih =>
    intro st
    simp only [find_frame_loop, find_frame_exhaustive_loop]
    rcases xor_frame_cases bits idx st.2 with h | ⟨h1, h2⟩
    · rw [h]
      split_ifs <;> exact ih _
    · rw [if_neg (by omega), if_neg (by omega)]
      exact ih st

/-- Helper: invariant of the exhaustive search loop over the consecutive
candidates `a, a+1, …, a+n-1`: either no candidate beat the incoming
best `lm` and the state is returned unchanged, or the result is the
first candidate attaining the minimum, with its exact full score. -/
theorem exhaustive_loop_spec (bits : Nat → Bool) :
    ∀ (n a mi lm : Nat),
      (find_frame_exhaustive_loop bits (List.range' a n) (mi, lm) = (mi, lm) ∧
        ∀ j, a ≤ j → j < a + n → lm ≤ xor_frame_full bits j) ∨
      (a ≤ (find_frame_exhaustive_loop bits (List.range' a n) (mi, lm)).1 ∧
        (find_frame_exhaustive_loop bits (List.range' a n) (mi, lm)).1 < a + n ∧
        (find_frame_exhaustive_loop bits (List.range' a n) (mi, lm)).2 =
          xor_frame_full bits
            (find_frame_exhaustive_loop bits (List.range' a n) (mi, lm)).1 ∧
        (find_frame_exhaustive_loop bits (List.range' a n) (mi, lm)).2 < lm ∧
        (∀ j, a ≤ j → j < a + n →
          (find_frame_exhaustive_loop bits (List.range' a n) (mi, lm)).2 ≤
            xor_frame_full bits j) ∧
        (∀ j, a ≤ j →
          j < (find_frame_exhaustive_loop bits (List.range' a n) (mi, lm)).1 →
          (find_frame_exhaustive_loop bits (List.range' a n) (mi, lm)).2 <
            xor_frame_full bits j)) := by
  intro n
  induction n with
  | zero =>
    intro a mi lm
    left
    refine ⟨rfl, ?_⟩
    intro j h1 h2
    omega
  | succ n ih =>
    intro a mi lm
    rw [List.range'_succ]
    simp only [find_frame_exhaustive_loop]
    by_cases hc : xor_frame_full bits a < lm
    · rw [if_pos hc]
      rcases ih (a + 1) a (xor_frame_full bits a) with ⟨heq, hall⟩ | hcase
      · right
        rw [heq]
        dsimp only
        refine ⟨le_refl a, by omega, rfl, hc, ?_, ?_⟩
        · intro j h1 h2
          by_cases hj : j = a
          · subst hj; exact le_refl _
          · exact hall j (by omega) (by omega)
        · intro j h1 h2
          omega
      · right
        obtain ⟨k1, k2, k3, k4, k5, k6⟩ := hcase
        refine ⟨by omega, by omega, k3, by omega, ?_, ?_⟩
        · intro j h1 h2
          by_cases hj : j = a
          · subst hj; omega
          · exact k5 j (by omega) (by omega)
        · intro j h1 h2
          by_cases hj : j = a
          · subst hj; exact k4
          · exact k6 j (by omega) h2
    · rw [if_neg hc]
      rcases ih (a + 1) mi lm with ⟨heq, hall⟩ | hcase
      · left
        refine ⟨heq, ?_⟩
        intro j h1 h2
        by_cases hj : j = a
        · subst hj; omega
        · exact hall j (by omega) (by omega)
      · right
        obtain ⟨k1, k2, k3, k4, k5, k6⟩ := hcase
        refine ⟨by omega, by omega, k3, k4, ?_, ?_⟩
        · intro j h1 h2
          by_cases hj : j = a
          · subst hj; omega
          · exact k5 j (by omega) (by omega)
        · intro j h1 h2
          by_cases hj : j = a
          · subst hj; omega
          · exact k6 j (by omega) h2

/-- Helper: a one-second template score never exceeds the number of
samples in the second. -/
theorem xor_sec_le (bits : Nat → Bool) (samp_idx zl ol : Nat) :
    xor_sec bits samp_idx zl ol ≤ zl + ol := by
  unfold xor_sec
  have h1 : ∑ i ∈ Finset.range zl, (bits (samp_idx + i)).toNat ≤ zl := by
    calc ∑ i ∈ Finset.range zl, (bits (samp_idx + i)).toNat
        ≤ ∑ _i ∈ Finset.range zl, 1 :=
          Finset.sum_le_sum (fun i _ => by cases bits (samp_idx + i) <;> simp)
      _ = zl := by simp
  have h2 : ∑ i ∈ Finset.range ol,
      (1 - (bits (samp_idx + zl + i)).toNat) ≤ ol := by
    calc ∑ i ∈ Finset.range ol, (1 - (bits (samp_idx + zl + i)).toNat)
        ≤ ∑ _i ∈ Finset.range ol, 1 :=
          Finset.sum_le_sum (fun i _ => Nat.sub_le 1 _)
      _ = ol := by simp
  omega

/-- Helper: a fixed-position score is at most `SAMPLES_PER_SEC`. -/
theorem xor_entry_le (bits : Nat → Bool) (samp_idx : Nat) (e : Nat × Nat) :
    xor_entry bits samp_idx e ≤ SAMPLES_PER_SEC := by
  have hS : SAMPLES_PER_SEC = 40 := by decide
  unfold xor_entry xor_zero xor_mark
  split_ifs
  · exact le_trans (xor_sec_le bits _ _ _) (by rw [hS]; decide)
  · exact le_trans (xor_sec_le bits _ _ _) (by rw [hS]; decide)
  · omega

/-- Helper: the full frame score is at most 18 positions × 40 samples. -/
theorem xor_frame_full_le (bits : Nat → Bool) (samp_idx : Nat) :
    xor_frame_full bits samp_idx ≤ 18 * SAMPLES_PER_SEC := by
  unfold xor_frame_full
  have h := List.sum_le_card_nsmul
    (frame_const_fields.map (xor_entry bits samp_idx)) SAMPLES_PER_SEC
    (by
      intro x hx
      rcases List.mem_map.mp hx with ⟨e, _he, rfl⟩
      exact xor_entry_le bits samp_idx e)
  simpa [frame_const_fields, Nat.mul_comm] using h

/-- Helper: full characterization of `find_frame`: the returned offset is
a valid candidate, the returned error is its exact full score, it is a
global minimum over all candidates, and every earlier candidate scores
strictly worse (first-minimum tie-break). -/
theorem find_frame_characterization (bits : Nat → Bool) :
    (find_frame bits).1 < BLEN - SAMPLES_PER_SEC * 60 ∧
    (find_frame bits).2 = xor_frame_full bits (find_frame bits).1 ∧
    (∀ j, j < BLEN - SAMPLES_PER_SEC * 60 →
      (find_frame bits).2 ≤ xor_frame_full bits j) ∧
    (∀ j, j < (find_frame bits).1 →
      (find_frame bits).2 < xor_frame_full bits j) := by
  have heq : find_frame bits =
      find_frame_exhaustive_loop bits
        (List.range' 0 (BLEN - SAMPLES_PER_SEC * 60))
        (BLEN + BLEN, SAMPLES_PER_SEC * 120) := by
    rw [find_frame, find_frame_loop_eq, List.range_eq_range']
  rcases exhaustive_loop_spec bits (BLEN - SAMPLES_PER_SEC * 60) 0
      (BLEN + BLEN) (SAMPLES_PER_SEC * 120) with ⟨_h1, h2⟩ | hcase
  · exfalso
    have h0 := h2 0 (le_refl 0) (by decide)
    have hle := xor_frame_full_le bits 0
    have hS : SAMPLES_PER_SEC = 40 := by decide
    omega
  · obtain ⟨_k1, k2, k3, k4, k5, k6⟩ := hcase
    rw [heq]
    refine ⟨by omega, k3, ?_, ?_⟩
    · intro j hj
      exact k5 j (by omega) (by omega)
    · intro j hj
      exact k6 j (by omega) hj

/-- C4: the early-abandon pruning inside `xor_frame` never changes the
result of `find_frame`: it returns exactly the offset and total error of
the exhaustive variant that always evaluates all 18 fixed positions. -/
theorem find_frame_prune_eq (bits : Nat → Bool) :
    find_frame bits = find_frame_exhaustive bits := by
  rw [find_frame, find_frame_exhaustive, find_frame_loop_eq]

/-- C3: `find_frame` returns a candidate offset (below
`BLEN - SAMPLES_PER_SEC * 60`) together with its cumulative error over
the 18 fixed frame positions; that error is minimal among all candidate
offsets, and every lower offset has a strictly larger cumulative error,
so on ties the lowest offset wins. -/
theorem find_frame_argmin (bits : Nat → Bool) :
    (find_frame bits).1 < BLEN - SAMPLES_PER_SEC * 60 ∧
    (find_frame bits).2 = xor_frame_full bits (find_frame bits).1 ∧
    (∀ j, j < BLEN - SAMPLES_PER_SEC * 60 →
      (find_frame bits).2 ≤ xor_frame_full bits j) ∧
    (∀ j, j < (find_frame bits).1 →
      (find_frame bits).2 < xor_frame_full bits j) :=
  find_frame_characterization bits

/-- Witness for `find_frame_argmin` on the constant-false buffer at
candidate offset 0. -/
theorem find_frame_argmin_witness :
    (0 < BLEN - SAMPLES_PER_SEC * 60) ∧
    (find_frame (fun _ => false)).2 ≤ xor_frame_full (fun _ => false) 0 :=
  ⟨by decide, (find_frame_argmin (fun _ => false)).2.2.1 0 (by decide)⟩

/-- Helper: a right fold of `max` over a list of values below `B` stays
below `B`. -/
theorem foldr_max_lt (l : List Nat) (B : Nat) (hB : 0 < B)
    (h : ∀ x ∈ l, x < B) : l.foldr max 0 < B := by
  induction l with
  | nil => simpa
  | cons x xs ih =>
    simp only [List.foldr_cons]
    exact Nat.max_lt.mpr ⟨h x (by simp), ih (fun y hy => h y (by simp [hy]))⟩

/-- Helper: every sample index `decode_frame` can read lies below
`frame_idx + 59 seconds` (the largest field bit position is 58). -/
theorem mem_decode_frame_reads (frame_idx r : Nat)
    (h : r ∈ decode_frame_reads frame_idx) :
    r < frame_idx + 59 * SAMPLES_PER_SEC := by
  unfold decode_frame_reads at h
  simp only [List.mem_flatten, List.mem_map] at h
  obtain ⟨sub, ⟨c, hc, rfl⟩, hr⟩ := h
  simp only [List.mem_map, List.mem_range] at hr
  obtain ⟨j, hj, rfl⟩ := hr
  have hc58 : c.1 ≤ 58 := by
    have hall : ∀ d ∈ frame_codes.flatten, d.1 ≤ 58 := by decide
    exact hall c (List.mem_flatten.mpr hc)
  have hS : SAMPLES_PER_SEC = 40 := by decide
  rw [hS] at hj ⊢
  omega

/-- C10: `find_frame` always returns an offset strictly below
`BLEN - SAMPLES_PER_SEC * 60`, in particular never its initialization
value `BLEN + BLEN`; its error is at most `18 * SAMPLES_PER_SEC = 720`
(strictly below the initial running minimum of 4800, so the first
candidate always replaces it); and every sample index `decode_frame`
can read at the returned offset is within the buffer bounds. -/
theorem find_frame_safety (bits : Nat → Bool) :
    (find_frame bits).1 < BLEN - SAMPLES_PER_SEC * 60 ∧
    (find_frame bits).1 ≠ BLEN + BLEN ∧
    (find_frame bits).2 ≤ 18 * SAMPLES_PER_SEC ∧
    (decode_frame_reads (find_frame bits).1).foldr max 0 < BLEN := by
  obtain ⟨h1, h2, _h3, _h4⟩ := find_frame_characterization bits
  have hS : SAMPLES_PER_SEC = 40 := by decide
  have hB : BLEN = 4800 := by decide
  refine ⟨h1, ?_, ?_, ?_⟩
  · rw [hB, hS] at h1
    rw [hB]
    omega
  · rw [h2]
    exact xor_frame_full_le bits _
  · refine foldr_max_lt _ BLEN (by decide) ?_
    intro r hr
    have hread := mem_decode_frame_reads _ r hr
    rw [hS] at hread
    rw [hB, hS] at h1
    rw [hB]
    omega

end WwvbDec
